import Mathlib

/-!
Verification development for the WaterlooWorks job-scraper backend
(files jobhunter.py, jobhunter_f.py, jobhunter_g.py).  The Python code is
shallowly embedded: pure text processing becomes Lean functions on strings
and character lists, the HTML document handled by BeautifulSoup becomes an
explicit tree, and the browser environment observed by a scan (row
visibility, click success, header text, detail HTML) becomes explicit
environment records.  All definitions are executable.
-/

set_option maxHeartbeats 1000000

namespace ReResume

/-! ## Character and string helpers (Python semantics, ASCII range) -/

/-- The whitespace characters recognized by Python in the ASCII range: these
are the characters matched by a whitespace class in a regex and removed by
strip at the ends of a string. -/
def pyIsSpace (c : Char) : Bool :=
  c == ' ' || c == '\t' || c == '\n' || c == '\r' || c == '\x0b' || c == '\x0c'

/-- Python strip: remove leading and trailing whitespace. -/
def pyStripL (l : List Char) : List Char :=
  ((l.dropWhile pyIsSpace).reverse.dropWhile pyIsSpace).reverse

/-- Python strip on strings. -/
def pyStrip (s : String) : String :=
  String.mk (pyStripL s.data)

/-- Containment of one character list in another, as in the Python membership
test on strings. -/
def isInfixB (needle : List Char) : List Char → Bool
  | [] => needle.isEmpty
  | c :: rest => needle.isPrefixOf (c :: rest) || isInfixB needle rest

/-- Membership of a string in a list of strings, as in the Python membership
test on a set of ids. -/
def memB (s : String) : List String → Bool
  | [] => false
  | t :: rest => (s == t) || memB s rest

/-! ## The newline-collapsing substitution

The scraper cleans extracted text with a substitution that rewrites every
leftmost-greedy occurrence of "newline, whitespace run, newline" to exactly
two newlines.  The scan below mirrors the regex engine: on reading a
newline it looks ahead through the following whitespace run; if that run
contains another newline the match greedily extends to the last newline of
the run and the whole match is replaced by two newlines, after which
scanning resumes past the match. -/

/-- Look-ahead helper for the greedy whitespace match.  Walking the
whitespace prefix of the list, it records the remainder after each newline
seen and returns the remainder after the last such newline, or the saved
value if no further newline occurs. -/
def dropGreedy : List Char → Option (List Char) → Option (List Char)
  | [], save => save
  | c :: rest, save =>
    if c = '\n' then dropGreedy rest (some rest)
    else if pyIsSpace c then dropGreedy rest save
    else save

/-- Fuelled scan implementing the substitution.  Fuel at least the length of
the input makes the zero-fuel arm unreachable. -/
def pySubFuel : Nat → List Char → List Char
  | 0, cs => cs
  | fuel + 1, cs =>
    match cs with
    | [] => []
    | c :: rest =>
      if c = '\n' then
        match dropGreedy rest none with
        | some r => '\n' :: '\n' :: pySubFuel fuel r
        | none => '\n' :: pySubFuel fuel rest
      else c :: pySubFuel fuel rest

/-- The substitution collapsing runs of blank lines, on character lists. -/
def pySubNl (cs : List Char) : List Char :=
  pySubFuel cs.length cs

/-- The substitution collapsing runs of blank lines, on strings. -/
def collapseNl (s : String) : String :=
  String.mk (pySubNl s.data)

/-! ## Detecting a run of two or more consecutive blank lines -/

/-- Skip whitespace up to and including the first newline; none if a
non-whitespace character or the end of the list comes first. -/
def skipToNl : List Char → Option (List Char)
  | [] => none
  | c :: rest => if c = '\n' then some rest else if pyIsSpace c then skipToNl rest else none

/-- Whether the list begins with a newline followed, through whitespace, by
two further newlines: the start of two consecutive blank lines. -/
def startsBlankRun : List Char → Bool
  | [] => false
  | c :: rest =>
    if c = '\n' then
      match skipToNl rest with
      | some r2 => (skipToNl r2).isSome
      | none => false
    else false

/-- Whether any suffix of the list starts a run of two consecutive blank
lines. -/
def hasBlankRun : List Char → Bool
  | [] => false
  | c :: rest => startsBlankRun (c :: rest) || hasBlankRun rest

/-! ## The parsed HTML document

A parsed document is a tree of element nodes (tag name, class attribute
values, children) and text nodes, the structure BeautifulSoup exposes to
the extractor.  Node identity, which the Python code relies on when it
removes the found label element from its container, is represented by
paths: lists of child indices. -/

mutual
inductive Node where
  | elem (tag : String) (classes : List String) (children : NodeList)
  | text (s : String)
inductive NodeList where
  | nil
  | cons (head : Node) (tail : NodeList)
end

/-- Build a NodeList from a list literal. -/
def listToNodes : List Node → NodeList := fun l => l.foldr NodeList.cons NodeList.nil

/-- Child at an index. -/
def NodeList.getNth : NodeList → Nat → Option Node
  | .nil, _ => none
  | .cons c _, 0 => some c
  | .cons _ cs, n + 1 => NodeList.getNth cs n

/-- Replace the child at an index. -/
def NodeList.setNth : NodeList → Nat → Node → NodeList
  | .nil, _, _ => .nil
  | .cons _ cs, 0, x => .cons x cs
  | .cons c cs, n + 1, x => .cons c (NodeList.setNth cs n x)

/-- Remove the child at an index. -/
def NodeList.removeNth : NodeList → Nat → NodeList
  | .nil, _ => .nil
  | .cons _ cs, 0 => cs
  | .cons c cs, n + 1 => .cons c (NodeList.removeNth cs n)

/-- The node reached by a path of child indices. -/
def getAt : List Nat → Node → Option Node
  | [], n => some n
  | i :: rest, .elem _ _ ch =>
    match ch.getNth i with
    | some c => getAt rest c
    | none => none
  | _ :: _, .text _ => none

/-- Remove the node at a nonempty path, as decompose does on the found
label element. -/
def removeAt : List Nat → Node → Node
  | [], n => n
  | [i], .elem t c ch => .elem t c (ch.removeNth i)
  | i :: rest, .elem t c ch =>
    match ch.getNth i with
    | some child => .elem t c (ch.setNth i (removeAt rest child))
    | none => .elem t c ch
  | _ :: _, .text s => .text s

/-- Replace the subtree at a path, used to write the mutated container back
into the document tree. -/
def replaceAt : List Nat → Node → Node → Node
  | [], _, repl => repl
  | i :: rest, .elem t c ch, repl =>
    match ch.getNth i with
    | some child => .elem t c (ch.setNth i (replaceAt rest child repl))
    | none => .elem t c ch
  | _ :: _, .text s, _ => .text s

/-- The string property of a tag, as BeautifulSoup defines it: the contents
of a sole text child, looked up through a chain of sole element children. -/
def nodeString : Node → Option String
  | .elem _ _ (.cons (.text s) .nil) => some s
  | .elem _ _ (.cons (.elem t c ch) .nil) => nodeString (.elem t c ch)
  | _ => none

/-- Whether a node is a span with class label whose string is nonempty and
contains the keyword: the criterion of the find call locating a field
label. -/
def labelMatches (kw : String) : Node → Bool
  | .elem tag classes ch =>
    tag == "span" && classes.contains "label" &&
      (match nodeString (.elem tag classes ch) with
       | some s => (!s.isEmpty) && isInfixB kw.data s.data
       | none => false)
  | .text _ => false

mutual
/-- Path of the first matching label among the descendants of a node, in
document order. -/
def findIn (kw : String) : Node → Option (List Nat)
  | .text _ => none
  | .elem _ _ ch => findInL kw ch
def findInL (kw : String) : NodeList → Option (List Nat)
  | .nil => none
  | .cons c cs =>
    if labelMatches kw c then some [0]
    else
      match findIn kw c with
      | some p => some (0 :: p)
      | none =>
        match findInL kw cs with
        | some (j :: p) => some ((j + 1) :: p)
        | some [] => none
        | none => none
end

/-- The find call of the extractor: first span with class label whose
string contains the keyword. -/
def findSpanPath (kw : String) (t : Node) : Option (List Nat) := findIn kw t

/-- Proper prefixes of a path, longest first: the paths of the ancestors of
a node from its parent up to the root. -/
def ppref : List Nat → List (List Nat)
  | [] => []
  | a :: as => (ppref as).map (a :: ·) ++ [[]]

/-- Whether a node is the container div the extractor looks for. -/
def isContainerDiv : Node → Bool
  | .elem tag classes _ => tag == "div" && classes.contains "tag__key-value-list"
  | .text _ => false

/-- First ancestor path in the given candidate list whose node is a
container div. -/
def firstContainer (t : Node) : List (List Nat) → Option (List Nat × Node)
  | [] => none
  | q :: qs =>
    match getAt q t with
    | some n => if isContainerDiv n then some (q, n) else firstContainer t qs
    | none => firstContainer t qs

/-- The find_parent call of the extractor: nearest ancestor of the label
that is a div with class tag__key-value-list. -/
def findContainerPath (t : Node) (p : List Nat) : Option (List Nat × Node) :=
  firstContainer t (ppref p)

mutual
/-- Replace a line-break element by a literal newline text node; recurse
into other elements. -/
def replaceBr1 : Node → Node
  | .text s => .text s
  | .elem tag classes ch =>
    if tag = "br" then .text "\n" else .elem tag classes (replaceBrsL ch)
def replaceBrsL : NodeList → NodeList
  | .nil => .nil
  | .cons c cs => .cons (replaceBr1 c) (replaceBrsL cs)
end

/-- Replace every line-break element among the descendants of a node, as
the loop over the result of find_all does inside the container. -/
def replaceBrs : Node → Node
  | .text s => .text s
  | .elem tag classes ch => .elem tag classes (replaceBrsL ch)

mutual
/-- Number of line-break elements in a subtree. -/
def countBr : Node → Nat
  | .text _ => 0
  | .elem tag _ ch => (if tag = "br" then 1 else 0) + countBrL ch
def countBrL : NodeList → Nat
  | .nil => 0
  | .cons c cs => countBr c + countBrL cs
end

mutual
/-- The text-node contents of a subtree in document order. -/
def textNodes : Node → List String
  | .text s => [s]
  | .elem _ _ ch => textNodesL ch
def textNodesL : NodeList → List String
  | .nil => []
  | .cons c cs => textNodes c ++ textNodesL cs
end

/-- The get_text call with newline separator and stripping: each descendant
text fragment is stripped, empty fragments are dropped, and the remainder
is joined with single newlines. -/
def stripJoin (n : Node) : String :=
  String.intercalate "\n" (((textNodes n).map pyStrip).filter (fun s => !s.isEmpty))

/-- The inner helper of extract_text_sections.  Locates the first label
span containing the keyword, then its nearest container div; failing
either lookup it returns the sentinel and the unchanged document.
Otherwise it removes the label from the container, turns line breaks into
newline text, flattens the container text and collapses blank-line runs,
returning the cleaned text together with the mutated document. -/
def get_clean_text (t : Node) (kw : String) : String × Node :=
  match findSpanPath kw t with
  | none => ("Not Found", t)
  | some p =>
    match findContainerPath t p with
    | none => ("Not Found", t)
    | some (q, container) =>
      let cleaned := replaceBrs (removeAt (p.drop q.length) container)
      (collapseNl (stripJoin cleaned), replaceAt q t cleaned)

/-- The three labeled fields, extracted in the fixed order of the source
with the mutated document threaded through the calls. -/
def extract_text_sections (t : Node) : String × String × String :=
  let r1 := get_clean_text t "Job Summary"
  let r2 := get_clean_text r1.2 "Job Responsibilities"
  let r3 := get_clean_text r2.2 "Required Skills"
  (r1.1, r2.1, r3.1)

/-- Extraction of a list of labeled fields in a caller-chosen order, with
the document state threaded exactly as extract_text_sections threads it. -/
def runKeywords : List String → Node → List String × Node
  | [], t => ([], t)
  | kw :: kws, t =>
    let r := get_clean_text t kw
    let rest := runKeywords kws r.2
    (r.1 :: rest.1, rest.2)

/-! ## Concrete documents used as witnesses and counterexamples -/

/-- A detail panel in which one container div holds the labels of two
different fields next to the shared content. -/
def exDoc4 : Node := .elem "html" [] (listToNodes [
  .elem "div" ["tag__key-value-list"] (listToNodes [
    .elem "span" ["label"] (listToNodes [.text "Job Summary"]),
    .elem "span" ["label"] (listToNodes [.text "Job Responsibilities"]),
    .text "content" ]) ])

/-- A well-formed container with one label and plain content. -/
def wDoc : Node := .elem "div" ["tag__key-value-list"] (listToNodes [
  .elem "span" ["label"] (listToNodes [.text "Job Summary"]),
  .text "We build things." ])

/-- A container whose content itself begins with the label text. -/
def echoDoc : Node := .elem "div" ["tag__key-value-list"] (listToNodes [
  .elem "span" ["label"] (listToNodes [.text "Job Summary"]),
  .text "Job Summary extra" ])

/-! ## The page scanner

A scan of a listing page observes, independently for each row, whether the
primary link is visible, the raw title text, whether the click eventually
succeeded within its retries, whether the detail-view wait or the
extraction raised (both are caught by the same handler and suppress the
append), the detail header text, the optional text of the labeled Job ID
table row, the listing column texts, and the detail HTML snapshot together
with the snapshot taken by the single retry.  These observations form the
row environment. -/

/-- One extracted record, with the column fields of the scraper. -/
structure Record where
  jobId : String
  jobTitle : String
  col1 : String
  col2 : String
  col3 : String
  col4 : String
  summary : String
  responsibilities : String
  skills : String
deriving DecidableEq

/-- The environment observed while processing one listing row. -/
structure RowEnv where
  linkVisible : Bool
  title : String
  clickOk : Bool
  detailFails : Bool
  headerText : String
  bodyIdText : Option String
  col1 : String
  col2 : String
  col3 : String
  col4 : String
  detailDoc : Node
  retryDoc : Node

/-- First run of six consecutive decimal digits in the text, as the search
for a six-digit group finds it: the scan tries every start position from
the left and captures the six digits of the first position at which six
digits follow. -/
def find6 : List Char → Option (List Char)
  | [] => none
  | c :: rest =>
    if ((c :: rest).take 6).length == 6 && ((c :: rest).take 6).all Char.isDigit
    then some ((c :: rest).take 6)
    else find6 rest

/-- Job ID determination of the resumable scrapers: first six-digit run of
the header text, else first six-digit run of the visible Job ID table row,
else the sentinel. -/
def determineId (r : RowEnv) : String :=
  match find6 r.headerText.data with
  | some d => String.mk d
  | none =>
    match r.bodyIdText with
    | some s =>
      match find6 s.data with
      | some d => String.mk d
      | none => "N/A"
    | none => "N/A"

/-- The environment observed by one polling attempt of the original
scraper variant. -/
structure PollEnv where
  headerVisible : Bool
  headerText : String
  bodyIdText : Option String

/-- Job ID determination of the original scraper variant: up to ten polling
attempts, each checking the header then the Job ID table row, stopping at
the first six-digit match and otherwise leaving the sentinel. -/
def determineIdPoll : List PollEnv → String
  | [] => "N/A"
  | e :: rest =>
    match (if e.headerVisible then find6 e.headerText.data else none) with
    | some d => String.mk d
    | none =>
      match e.bodyIdText with
      | some s =>
        match find6 s.data with
        | some d => String.mk d
        | none => determineIdPoll rest
      | none => determineIdPoll rest

/-- Processing of one row: skip when the link is not visible, the stripped
title is empty, the click never succeeded, or the detail wait or the
extraction raised; skip when the determined id is not the sentinel and
already known; otherwise extract the three text sections, re-extracting
from the retry snapshot when the summary came back as the sentinel while
an id was found, and produce the record. -/
def rowOutcome (ids : List String) (r : RowEnv) : Option Record :=
  if !r.linkVisible then none
  else if (pyStrip r.title).isEmpty then none
  else if !r.clickOk then none
  else if r.detailFails then none
  else
    let jid := determineId r
    if (jid != "N/A") && memB jid ids then none
    else
      let e1 := extract_text_sections r.detailDoc
      let e := if (e1.1 == "Not Found") && (jid != "N/A")
               then extract_text_sections r.retryDoc else e1
      some { jobId := jid, jobTitle := pyStrip r.title,
             col1 := r.col1, col2 := r.col2, col3 := r.col3, col4 := r.col4,
             summary := e.1, responsibilities := e.2.1, skills := e.2.2 }

/-- The environment of one listing page: whether the table ever appeared,
and the rows observed. -/
structure PageEnv where
  tableOk : Bool
  rows : List RowEnv

/-- Scan of the current page: an empty result when the table never
appears, otherwise the records produced row by row. -/
def scrape_current_page (pg : PageEnv) (existing_ids : List String) : List Record :=
  if pg.tableOk then pg.rows.filterMap (rowOutcome existing_ids) else []

/-- The row-level failures enumerated by the specification: link not
interactable, click failed after retries, detail-view wait timeout or
extraction exception. -/
def rowFails (r : RowEnv) : Bool :=
  !r.linkVisible || !r.clickOk || r.detailFails

/-! ## The crawl controller -/

/-- The estimated listing page size used by the resume heuristic. -/
def JOBS_PER_PAGE_GUESS : Nat := 50

/-- The crawl state: the in-memory result set, the known-id set, and the
persisted snapshot at the output destination (none when no file exists). -/
structure CrawlState where
  df : List Record
  ids : List String
  persisted : Option (List Record)
deriving DecidableEq

/-- Checkpoint load: with no readable prior file the crawl starts fresh
with an empty id set at page one; otherwise the id set collects the Job ID
of every persisted record and the start page is the record count divided
by the estimated page size, plus one. -/
def checkpointLoad : Option (List Record) → List String × Nat
  | none => ([], 1)
  | some df => (df.map Record.jobId, df.length / JOBS_PER_PAGE_GUESS + 1)

/-- One iteration of the main loop: scan the current page against the
known ids; when at least one new record was produced, append the batch to
the result set, rewrite the whole result set to the destination, and add
the batch ids to the known set; otherwise change nothing. -/
def crawlStep (st : CrawlState) (pg : PageEnv) : CrawlState :=
  let newJobs := scrape_current_page pg st.ids
  if newJobs.isEmpty then st
  else { df := st.df ++ newJobs,
         ids := st.ids ++ newJobs.map Record.jobId,
         persisted := some (st.df ++ newJobs) }

/-- The main loop over the pages actually scanned. -/
def runPages (st : CrawlState) : List PageEnv → CrawlState
  | [] => st
  | pg :: ps => runPages (crawlStep st pg) ps

/-- A full run against one destination: checkpoint load from the prior
persisted result, then the main loop.  The fast-forward clicking only
selects which page environments the loop visits, so the visited pages are
the parameter. -/
def scrape_all_pages (prior : Option (List Record)) (pages : List PageEnv) : CrawlState :=
  runPages { df := prior.getD [], ids := (checkpointLoad prior).1, persisted := prior } pages

/-- No two records share a Job ID other than the sentinel. -/
abbrev NSPairwiseRec (l : List Record) : Prop :=
  l.Pairwise (fun a b => a.jobId = b.jobId → a.jobId = "N/A")

/-- No two rows of a page determine the same non-sentinel id. -/
abbrev DistinctRowIds (rows : List RowEnv) : Prop :=
  rows.Pairwise (fun r1 r2 => determineId r1 = determineId r2 → determineId r1 = "N/A")

/-- Every visited page presents pairwise distinct non-sentinel ids. -/
abbrev GoodPages (pages : List PageEnv) : Prop :=
  ∀ pg ∈ pages, DistinctRowIds pg.rows

/-- The prior persisted result, when present, has no duplicate non-sentinel
id. -/
def NSOpt : Option (List Record) → Prop
  | none => True
  | some d => NSPairwiseRec d

/-! ## The filter controller -/

/-- The environment observed by the filter application: whether the Level
button was found and whether the dropdown opened. -/
structure FilterEnv where
  levelButtonVisible : Bool
  dropdownOpens : Bool

/-- The level names toggled on. -/
def target_levels : List String := ["Junior", "Intermediate"]

/-- Toggling one named level: the first dropdown row whose text contains
the level name is clicked exactly when its toggle is off, which flips it
on; an already-on row is left alone; other rows are untouched. -/
def applyLevel : List (String × Bool) → String → List (String × Bool)
  | [], _ => []
  | (t, v) :: rest, lv =>
    if isInfixB lv.data t.data then (t, if v then v else true) :: rest
    else (t, v) :: applyLevel rest lv

/-- The filter application: a missing button or a dropdown that never
opens leaves every toggle unchanged; otherwise the target levels are
toggled on in order. -/
def apply_filters (env : FilterEnv) (st : List (String × Bool)) : List (String × Bool) :=
  if !env.levelButtonVisible then st
  else if !env.dropdownOpens then st
  else target_levels.foldl applyLevel st

/-- Whether the first row matching the level is already on (vacuously true
when no row matches). -/
def firstMatchOn (lv : String) : List (String × Bool) → Bool
  | [] => true
  | (t, v) :: rest => if isInfixB lv.data t.data then v else firstMatchOn lv rest

/-! ## Concrete environments used as witnesses and counterexamples -/

/-- A detail snapshot with no labeled sections. -/
def docPlain : Node := .text "detail"

/-- A row that yields a record with id 123456. -/
def rowGood : RowEnv :=
  { linkVisible := true, title := "Engineer", clickOk := true, detailFails := false,
    headerText := "Posting 123456 Engineer", bodyIdText := none,
    col1 := "Acme", col2 := "Dev", col3 := "2", col4 := "Waterloo",
    detailDoc := docPlain, retryDoc := docPlain }

/-- A row on which no id can be determined. -/
def rowNA : RowEnv := { rowGood with headerText := "Posting Engineer", title := "NoId" }

/-- A row whose click never succeeds. -/
def rowBad : RowEnv := { rowGood with clickOk := false, title := "Broken" }

/-- A page with the one good row. -/
def pgGood : PageEnv := { tableOk := true, rows := [rowGood] }

/-- A page with one row lacking an id. -/
def pgNA : PageEnv := { tableOk := true, rows := [rowNA] }

/-- A page presenting the id-less row twice. -/
def pgNA2 : PageEnv := { tableOk := true, rows := [rowNA, rowNA] }

/-- The record produced from the good row on a fresh scan. -/
def recGood : Record :=
  { jobId := "123456", jobTitle := "Engineer", col1 := "Acme", col2 := "Dev",
    col3 := "2", col4 := "Waterloo", summary := "Not Found",
    responsibilities := "Not Found", skills := "Not Found" }

/-- The empty crawl state. -/
def stEmpty : CrawlState := { df := [], ids := [], persisted := none }

/-- A filter environment in which the control works. -/
def fEnv : FilterEnv := { levelButtonVisible := true, dropdownOpens := true }

/-- A toggle state with one level already on. -/
def fState : List (String × Bool) := [("Junior", true), ("Intermediate", false)]

end ReResume

namespace ReResume

/-! ## Lemmas about the newline-collapsing substitution -/

theorem takeWhile_append_of_all : ∀ (pre l : List Char),
    (∀ c ∈ pre, pyIsSpace c = true) →
    (pre ++ l).takeWhile pyIsSpace = pre ++ l.takeWhile pyIsSpace := by
  intro pre l
  induction pre with
  | nil => simp
  | cons c cs ih =>
    intro h
    have hc : pyIsSpace c = true := h c (List.mem_cons_self c cs)
    have hcs : ∀ x ∈ cs, pyIsSpace x = true := fun x hx => h x (List.mem_cons_of_mem c hx)
    simp [List.takeWhile_cons, hc, ih hcs]

theorem takeWhile_eq_self_of_all {pre : List Char}
    (h : ∀ c ∈ pre, pyIsSpace c = true) :
    pre.takeWhile pyIsSpace = pre := by
  have hx := takeWhile_append_of_all pre [] h
  simpa using hx

theorem dropGreedy_some_ne_none (cs : List Char) (s : List Char) :
    dropGreedy cs (some s) ≠ none := by
  induction cs generalizing s with
  | nil => simp [dropGreedy]
  | cons c rest ih =>
    by_cases h1 : c = '\n'
    · simpa [dropGreedy, h1] using ih rest
    · by_cases h2 : pyIsSpace c = true
      · simpa [dropGreedy, h1, h2] using ih s
      · simp [dropGreedy, h1, h2]

theorem dropGreedy_aux_spec : ∀ (cs pre r : List Char),
    (∀ c ∈ pre, pyIsSpace c = true ∧ c ≠ '\n') →
    dropGreedy cs (some (pre ++ cs)) = some r →
    ('\n' ∉ r.takeWhile pyIsSpace) ∧ r.length ≤ pre.length + cs.length := by
  intro cs
  induction cs with
  | nil =>
    intro pre r hpre h
    simp only [dropGreedy, List.append_nil, Option.some.injEq] at h
    subst h
    constructor
    · intro hmem
      rw [takeWhile_eq_self_of_all (fun x hx => (hpre x hx).1)] at hmem
      exact (hpre _ hmem).2 rfl
    · simp
  | cons c rest ih =>
    intro pre r hpre h
    by_cases h1 : c = '\n'
    · subst h1
      simp only [dropGreedy, if_pos rfl] at h
      have hstep := ih [] r (by intro x hx; cases hx) (by simpa using h)
      refine ⟨hstep.1, ?_⟩
      have hlen := hstep.2
      simp only [List.length_nil, Nat.zero_add] at hlen
      simp only [List.length_cons]
      omega
    · by_cases h2 : pyIsSpace c = true
      · rw [show dropGreedy (c :: rest) (some (pre ++ c :: rest)) =
            dropGreedy rest (some (pre ++ c :: rest)) by
          simp [dropGreedy, h1, h2]] at h
        have harr : pre ++ c :: rest = (pre ++ [c]) ++ rest := by simp
        rw [harr] at h
        have hpre2 : ∀ x ∈ pre ++ [c], pyIsSpace x = true ∧ x ≠ '\n' := by
          intro x hx
          rcases List.mem_append.mp hx with hx | hx
          · exact hpre x hx
          · rcases List.mem_singleton.mp hx with rfl
            exact ⟨h2, h1⟩
        have hstep := ih (pre ++ [c]) r hpre2 h
        refine ⟨hstep.1, ?_⟩
        have hlen := hstep.2
        simp only [List.length_append, List.length_singleton] at hlen
        simp only [List.length_cons]
        omega
      · rw [show dropGreedy (c :: rest) (some (pre ++ c :: rest)) =
            some (pre ++ c :: rest) by simp [dropGreedy, h1, h2]] at h
        have hr : r = pre ++ c :: rest := by
          injection h with h
          exact h.symm
        subst hr
        constructor
        · intro hmem
          rw [takeWhile_append_of_all pre (c :: rest) (fun x hx => (hpre x hx).1)] at hmem
          rcases List.mem_append.mp hmem with hx | hx
          · exact (hpre _ hx).2 rfl
          · rw [List.takeWhile_cons, if_neg (by simp [h2])] at hx
            cases hx
        · simp [List.length_append]

theorem dropGreedy_none_spec {cs r : List Char}
    (h : dropGreedy cs none = some r) :
    ('\n' ∉ r.takeWhile pyIsSpace) ∧ r.length < cs.length := by
  induction cs with
  | nil => simp [dropGreedy] at h
  | cons c rest ih =>
    by_cases h1 : c = '\n'
    · subst h1
      simp only [dropGreedy, if_pos rfl] at h
      have hstep := dropGreedy_aux_spec rest [] r (by intro x hx; cases hx) (by simpa using h)
      refine ⟨hstep.1, ?_⟩
      have hlen := hstep.2
      simp only [List.length_nil, Nat.zero_add] at hlen
      simp only [List.length_cons]
      omega
    · by_cases h2 : pyIsSpace c = true
      · rw [show dropGreedy (c :: rest) none = dropGreedy rest none by
          simp [dropGreedy, h1, h2]] at h
        have hstep := ih h
        refine ⟨hstep.1, ?_⟩
        simp only [List.length_cons]
        omega
      · simp [dropGreedy, h1, h2] at h

theorem dropGreedy_none_none {cs : List Char}
    (h : dropGreedy cs none = none) :
    '\n' ∉ cs.takeWhile pyIsSpace := by
  induction cs with
  | nil => simp
  | cons c rest ih =>
    by_cases h1 : c = '\n'
    · subst h1
      simp only [dropGreedy, if_pos rfl] at h
      exact absurd h (dropGreedy_some_ne_none rest rest)
    · by_cases h2 : pyIsSpace c = true
      · rw [show dropGreedy (c :: rest) none = dropGreedy rest none by
          simp [dropGreedy, h1, h2]] at h
        intro hmem
        rw [List.takeWhile_cons, if_pos (by simp [h2])] at hmem
        rcases List.mem_cons.mp hmem with h3 | h3
        · exact h1 h3.symm
        · exact ih h h3
      · intro hmem
        rw [List.takeWhile_cons, if_neg (by simp [h2])] at hmem
        cases hmem

theorem skipToNl_pySubFuel_none {fuel : Nat} {r : List Char}
    (hf : r.length ≤ fuel) (h : '\n' ∉ r.takeWhile pyIsSpace) :
    skipToNl (pySubFuel fuel r) = none := by
  induction fuel generalizing r with
  | zero =>
    have : r = [] := List.length_eq_zero.mp (Nat.le_zero.mp hf)
    subst this
    rfl
  | succ fuel ih =>
    match r with
    | [] => rfl
    | c :: rest =>
      by_cases h1 : c = '\n'
      · exfalso
        apply h
        subst h1
        rw [List.takeWhile_cons, if_pos (by decide)]
        exact List.mem_cons_self _ _
      · by_cases h2 : pyIsSpace c
        · have hrest : '\n' ∉ rest.takeWhile pyIsSpace := by
            intro hmem
            apply h
            rw [List.takeWhile_cons, if_pos (by simp [h2])]
            exact List.mem_cons_of_mem _ hmem
          have : pySubFuel (fuel + 1) (c :: rest) = c :: pySubFuel fuel rest := by
            simp [pySubFuel, h1]
          rw [this, skipToNl, if_neg h1, if_pos h2]
          exact ih (by simpa using Nat.le_of_succ_le_succ (by simpa [List.length_cons] using hf)) hrest
        · have : pySubFuel (fuel + 1) (c :: rest) = c :: pySubFuel fuel rest := by
            simp [pySubFuel, h1]
          rw [this, skipToNl, if_neg h1, if_neg (by simp [h2])]

theorem hasBlankRun_pySubFuel {fuel : Nat} {cs : List Char}
    (hf : cs.length ≤ fuel) :
    hasBlankRun (pySubFuel fuel cs) = false := by
  induction fuel generalizing cs with
  | zero =>
    have : cs = [] := List.length_eq_zero.mp (Nat.le_zero.mp hf)
    subst this
    rfl
  | succ fuel ih =>
    match cs with
    | [] => rfl
    | c :: rest =>
      have hrest : rest.length ≤ fuel := by
        simpa using Nat.le_of_succ_le_succ (by simpa [List.length_cons] using hf)
      by_cases h1 : c = '\n'
      · subst h1
        cases hdg : dropGreedy rest none with
        | none =>
          have hout : pySubFuel (fuel + 1) ('\n' :: rest) = '\n' :: pySubFuel fuel rest := by
            simp [pySubFuel, hdg]
          rw [hout]
          have hskip : skipToNl (pySubFuel fuel rest) = none :=
            skipToNl_pySubFuel_none hrest (dropGreedy_none_none hdg)
          simp [hasBlankRun, startsBlankRun, hskip, ih hrest]
        | some r =>
          have hspec := dropGreedy_none_spec hdg
          have hrf : r.length ≤ fuel := Nat.le_trans (Nat.le_of_lt hspec.2) hrest
          have hout : pySubFuel (fuel + 1) ('\n' :: rest) =
              '\n' :: '\n' :: pySubFuel fuel r := by
            simp [pySubFuel, hdg]
          rw [hout]
          have hskip : skipToNl (pySubFuel fuel r) = none :=
            skipToNl_pySubFuel_none hrf hspec.1
          simp [hasBlankRun, startsBlankRun, skipToNl, hskip, ih hrf]
      · have hout : pySubFuel (fuel + 1) (c :: rest) = c :: pySubFuel fuel rest := by
          simp [pySubFuel, h1]
        rw [hout]
        have hstart : startsBlankRun (c :: pySubFuel fuel rest) = false := by
          simp [startsBlankRun, h1]
        simp [hasBlankRun, hstart, ih hrest]

theorem hasBlankRun_pySubNl (cs : List Char) : hasBlankRun (pySubNl cs) = false :=
  hasBlankRun_pySubFuel (Nat.le_refl _)

/-! ## Lemmas about the document model and the extractor -/

mutual

theorem findIn_sound (kw : String) : ∀ (n : Node) (p : List Nat),
    findIn kw n = some p → ∃ m, getAt p n = some m ∧ labelMatches kw m = true
  | .text _, p, h => by simp [findIn] at h
  | .elem t c ch, p, h => by
    simp only [findIn] at h
    rcases findInL_sound kw ch p h with ⟨i, rest, cnode, hp, hget, m, hgm, hmatch⟩
    subst hp
    refine ⟨m, ?_, hmatch⟩
    simp [getAt, hget, hgm]

theorem findInL_sound (kw : String) : ∀ (ch : NodeList) (p : List Nat),
    findInL kw ch = some p →
    ∃ i rest cnode, p = i :: rest ∧ NodeList.getNth ch i = some cnode ∧
      ∃ m, getAt rest cnode = some m ∧ labelMatches kw m = true
  | .nil, p, h => by simp [findInL] at h
  | .cons c cs, p, h => by
    by_cases hlm : labelMatches kw c = true
    · rw [show findInL kw (.cons c cs) = some [0] by simp [findInL, hlm]] at h
      injection h with h
      subst h
      exact ⟨0, [], c, rfl, rfl, c, rfl, hlm⟩
    · cases hfi : findIn kw c with
      | some p1 =>
        rw [show findInL kw (.cons c cs) = some (0 :: p1) by simp [findInL, hlm, hfi]] at h
        injection h with h
        subst h
        rcases findIn_sound kw c p1 hfi with ⟨m, hm, hmatch⟩
        exact ⟨0, p1, c, rfl, rfl, m, hm, hmatch⟩
      | none =>
        cases hfl : findInL kw cs with
        | none =>
          rw [show findInL kw (.cons c cs) = none by simp [findInL, hlm, hfi, hfl]] at h
          cases h
        | some p2 =>
          rcases findInL_sound kw cs p2 hfl with ⟨j, rest, cnode, hp2, hget, m, hgm, hmatch⟩
          subst hp2
          rw [show findInL kw (.cons c cs) = some ((j + 1) :: rest) by
            simp [findInL, hlm, hfi, hfl]] at h
          injection h with h
          subst h
          exact ⟨j + 1, rest, cnode, rfl, by simpa [NodeList.getNth] using hget, m, hgm, hmatch⟩

end

theorem ppref_spec : ∀ (p q : List Nat), q ∈ ppref p → ∃ s, q ++ s = p ∧ 0 < s.length := by
  intro p
  induction p with
  | nil => intro q hq; simp [ppref] at hq
  | cons a as ih =>
    intro q hq
    simp only [ppref, List.mem_append, List.mem_map, List.mem_singleton] at hq
    rcases hq with ⟨q1, hq1, rfl⟩ | rfl
    · rcases ih q1 hq1 with ⟨s, hs, hlen⟩
      exact ⟨s, by simp [hs], hlen⟩
    · exact ⟨a :: as, rfl, by simp⟩

theorem firstContainer_spec (t : Node) : ∀ (qs : List (List Nat)) (q : List Nat) (C : Node),
    firstContainer t qs = some (q, C) →
    q ∈ qs ∧ getAt q t = some C ∧ isContainerDiv C = true := by
  intro qs
  induction qs with
  | nil => intro q C h; simp [firstContainer] at h
  | cons q0 qs ih =>
    intro q C h
    cases hg : getAt q0 t with
    | some n =>
      by_cases hc : isContainerDiv n = true
      · rw [show firstContainer t (q0 :: qs) = some (q0, n) by
          simp [firstContainer, hg, hc]] at h
        simp only [Option.some.injEq, Prod.mk.injEq] at h
        obtain ⟨rfl, rfl⟩ := h
        exact ⟨List.mem_cons_self _ _, hg, hc⟩
      · rw [show firstContainer t (q0 :: qs) = firstContainer t qs by
          simp [firstContainer, hg, hc]] at h
        rcases ih q C h with ⟨hmem, hga, hcd⟩
        exact ⟨List.mem_cons_of_mem _ hmem, hga, hcd⟩
    | none =>
      rw [show firstContainer t (q0 :: qs) = firstContainer t qs by
        simp [firstContainer, hg]] at h
      rcases ih q C h with ⟨hmem, hga, hcd⟩
      exact ⟨List.mem_cons_of_mem _ hmem, hga, hcd⟩

theorem findContainerPath_spec {t : Node} {p q : List Nat} {C : Node}
    (h : findContainerPath t p = some (q, C)) :
    getAt q t = some C ∧ isContainerDiv C = true ∧
      q ++ p.drop q.length = p ∧ 0 < (p.drop q.length).length := by
  rcases firstContainer_spec t (ppref p) q C h with ⟨hmem, hga, hcd⟩
  rcases ppref_spec p q hmem with ⟨s, hs, hlen⟩
  have hdrop : p.drop q.length = s := by
    rw [← hs]
    exact List.drop_left q s
  refine ⟨hga, hcd, ?_, ?_⟩
  · rw [hdrop, hs]
  · rw [hdrop]; exact hlen

theorem getAt_append : ∀ (q rel : List Nat) (t : Node),
    getAt (q ++ rel) t = (getAt q t).bind (getAt rel) := by
  intro q
  induction q with
  | nil => intro rel t; simp [getAt]
  | cons i q2 ih =>
    intro rel t
    cases t with
    | text s => simp [getAt]
    | elem tg cls ch =>
      cases hg : NodeList.getNth ch i with
      | some c => simp [getAt, hg, ih]
      | none => simp [getAt, hg]

theorem textNodesL_split : ∀ (ch : NodeList) (i : Nat) (c : Node),
    NodeList.getNth ch i = some c →
    ∃ pre suf, textNodesL ch = pre ++ (textNodes c ++ suf) ∧
      (∀ x, textNodesL (ch.setNth i x) = pre ++ (textNodes x ++ suf)) ∧
      textNodesL (ch.removeNth i) = pre ++ suf
  | .nil, i, c, h => by simp [NodeList.getNth] at h
  | .cons d ds, 0, c, h => by
    have hd : d = c := by
      simp only [NodeList.getNth, Option.some.injEq] at h
      exact h
    subst hd
    exact ⟨[], textNodesL ds, by simp [textNodesL],
      fun x => by simp [textNodesL, NodeList.setNth],
      by simp [textNodesL, NodeList.removeNth]⟩
  | .cons d ds, Nat.succ n, c, h => by
    have h2 : NodeList.getNth ds n = some c := by simpa [NodeList.getNth] using h
    rcases textNodesL_split ds n c h2 with ⟨pre, suf, ha, hb, hc⟩
    refine ⟨textNodes d ++ pre, suf, ?_, ?_, ?_⟩
    · simp [textNodesL, ha]
    · intro x
      simp [textNodesL, NodeList.setNth, hb x]
    · simp [textNodesL, NodeList.removeNth, hc]

theorem textNodes_removeAt : ∀ (rel : List Nat) (C L : Node),
    getAt rel C = some L → rel ≠ [] →
    ∃ pre suf, textNodes C = pre ++ (textNodes L ++ suf) ∧
      textNodes (removeAt rel C) = pre ++ suf
  | [], _, _, _, hne => absurd rfl hne
  | [i], C, L, h, _ => by
    cases C with
    | text s => simp [getAt] at h
    | elem t cls ch =>
      cases hg : NodeList.getNth ch i with
      | none =>
        rw [show getAt [i] (Node.elem t cls ch) = none by simp [getAt, hg]] at h
        cases h
      | some c =>
        have hL : c = L := by
          rw [show getAt [i] (Node.elem t cls ch) = some c by simp [getAt, hg]] at h
          injection h
        rcases textNodesL_split ch i c hg with ⟨pre, suf, ha, _, hc⟩
        rw [← hL]
        exact ⟨pre, suf, by simpa [textNodes] using ha,
          by simpa [textNodes, removeAt] using hc⟩
  | i :: j :: rest, C, L, h, _ => by
    cases C with
    | text s => simp [getAt] at h
    | elem t cls ch =>
      cases hg : NodeList.getNth ch i with
      | none =>
        rw [show getAt (i :: j :: rest) (Node.elem t cls ch) = none by simp [getAt, hg]] at h
        cases h
      | some child =>
        have hsub : getAt (j :: rest) child = some L := by
          rw [show getAt (i :: j :: rest) (Node.elem t cls ch) = getAt (j :: rest) child by
            simp [getAt, hg]] at h
          exact h
        rcases textNodes_removeAt (j :: rest) child L hsub (by simp) with ⟨pre1, suf1, hc1, hc2⟩
        rcases textNodesL_split ch i child hg with ⟨pre0, suf0, ha, hb, _⟩
        refine ⟨pre0 ++ pre1, suf1 ++ suf0, ?_, ?_⟩
        · simp only [textNodes, ha, hc1]
          simp [List.append_assoc]
        · rw [show removeAt (i :: j :: rest) (Node.elem t cls ch) =
            Node.elem t cls (ch.setNth i (removeAt (j :: rest) child)) by simp [removeAt, hg]]
          simp only [textNodes, hb, hc2]
          simp [List.append_assoc]

mutual

theorem countBr_replaceBr1 : ∀ (n : Node), countBr (replaceBr1 n) = 0
  | .text s => by simp [replaceBr1, countBr]
  | .elem tag classes ch => by
    by_cases h : tag = "br"
    · simp [replaceBr1, h, countBr]
    · simp [replaceBr1, h, countBr, countBrL_replaceBrsL ch]

theorem countBrL_replaceBrsL : ∀ (ch : NodeList), countBrL (replaceBrsL ch) = 0
  | .nil => by simp [replaceBrsL, countBrL]
  | .cons c cs => by
    simp [replaceBrsL, countBrL, countBr_replaceBr1 c, countBrL_replaceBrsL cs]

end

theorem removeAt_elem_shape : ∀ (rel : List Nat) (t : String) (cls : List String) (ch : NodeList),
    rel ≠ [] → ∃ ch2, removeAt rel (Node.elem t cls ch) = Node.elem t cls ch2
  | [], _, _, _, hne => absurd rfl hne
  | [i], t, cls, ch, _ => ⟨ch.removeNth i, rfl⟩
  | i :: j :: rest, t, cls, ch, _ => by
    cases hg : NodeList.getNth ch i with
    | some child =>
      exact ⟨ch.setNth i (removeAt (j :: rest) child), by simp [removeAt, hg]⟩
    | none => exact ⟨ch, by simp [removeAt, hg]⟩

theorem countBr_replaceBrs_elem (t : String) (cls : List String) (ch : NodeList)
    (h : t ≠ "br") : countBr (replaceBrs (Node.elem t cls ch)) = 0 := by
  simp [replaceBrs, countBr, h, countBrL_replaceBrsL ch]

/-! ## Claims about the detail extractor -/

/-- C6 (amended).  Whenever the label span and its ancestor container are
found, the extracted text for the field is computed from the container
with the label subtree removed, so the text fragments of the label do not
contribute to the result (though the label text may still appear if the
remaining content itself contains it); every line-break element of the
container is replaced before flattening, so none remains; and the final
text contains no run of two or more consecutive blank lines. -/
theorem C6_label_removed_no_blank_runs (t : Node) (kw : String) (p q rel : List Nat) (C : Node)
    (h1 : findSpanPath kw t = some p)
    (h2 : findContainerPath t p = some (q, C))
    (hrel : rel = p.drop q.length) :
    ∃ (L : Node) (pre suf : List String),
      getAt rel C = some L ∧
      labelMatches kw L = true ∧
      textNodes C = pre ++ (textNodes L ++ suf) ∧
      textNodes (removeAt rel C) = pre ++ suf ∧
      countBr (replaceBrs (removeAt rel C)) = 0 ∧
      (get_clean_text t kw).1 = collapseNl (stripJoin (replaceBrs (removeAt rel C))) ∧
      hasBlankRun (get_clean_text t kw).1.data = false := by
  subst hrel
  rcases findIn_sound kw t p h1 with ⟨m, hm, hmatch⟩
  rcases findContainerPath_spec h2 with ⟨hgaq, hcd, happ, hlen⟩
  have hrelC : getAt (p.drop q.length) C = some m := by
    have hap := getAt_append q (p.drop q.length) t
    rw [happ, hm, hgaq] at hap
    simpa using hap.symm
  have hne : p.drop q.length ≠ [] := by
    intro hcon
    rw [hcon] at hlen
    simp at hlen
  rcases textNodes_removeAt (p.drop q.length) C m hrelC hne with ⟨pre, suf, hsplit, hrem⟩
  have hcount : countBr (replaceBrs (removeAt (p.drop q.length) C)) = 0 := by
    cases C with
    | text s => simp [isContainerDiv] at hcd
    | elem tg cls ch =>
      have htg : tg = "div" := by
        simp only [isContainerDiv, Bool.and_eq_true, beq_iff_eq] at hcd
        exact hcd.1
      rcases removeAt_elem_shape (p.drop q.length) tg cls ch hne with ⟨ch2, hsh⟩
      rw [hsh]
      exact countBr_replaceBrs_elem tg cls ch2 (by rw [htg]; decide)
  have hval : (get_clean_text t kw).1 =
      collapseNl (stripJoin (replaceBrs (removeAt (p.drop q.length) C))) := by
    simp [get_clean_text, h1, h2]
  refine ⟨m, pre, suf, hrelC, hmatch, hsplit, hrem, hcount, hval, ?_⟩
  rw [hval]
  exact hasBlankRun_pySubNl _

/-- C6 witness: the amended theorem applied to a concrete container whose
label is found at path [0] under the container itself at path []. -/
theorem C6_witness : ∃ (L : Node) (pre suf : List String),
    getAt [0] wDoc = some L ∧
    labelMatches "Job Summary" L = true ∧
    textNodes wDoc = pre ++ (textNodes L ++ suf) ∧
    textNodes (removeAt [0] wDoc) = pre ++ suf ∧
    countBr (replaceBrs (removeAt [0] wDoc)) = 0 ∧
    (get_clean_text wDoc "Job Summary").1 =
      collapseNl (stripJoin (replaceBrs (removeAt [0] wDoc))) ∧
    hasBlankRun (get_clean_text wDoc "Job Summary").1.data = false :=
  C6_label_removed_no_blank_runs wDoc "Job Summary" [0] [] [0] wDoc rfl rfl rfl

/-- C6 counterexample: the claim asserts the label text never appears as a
prefix of the extracted result, but when the remaining content itself
begins with the label text the extracted result does start with it, even
though the label node was removed. -/
theorem C6_counterexample :
    (get_clean_text echoDoc "Job Summary").1 = "Job Summary extra" ∧
    List.isPrefixOf "Job Summary".data (get_clean_text echoDoc "Job Summary").1.data = true := by
  constructor <;> rfl

/-- C5 (confirmed).  If no label element whose string contains the keyword
Job Summary exists anywhere in the document, the extractor returns the
sentinel for the summary field; the embedding is a total function, so no
exception can be raised. -/
theorem C5_missing_label_sentinel (t : Node)
    (h : ∀ (p : List Nat) (n : Node), getAt p t = some n →
      labelMatches "Job Summary" n = false) :
    (extract_text_sections t).1 = "Not Found" := by
  have hnone : findSpanPath "Job Summary" t = none := by
    cases hf : findSpanPath "Job Summary" t with
    | none => rfl
    | some p =>
      rcases findIn_sound "Job Summary" t p hf with ⟨m, hm, hmatch⟩
      rw [h p m hm] at hmatch
      cases hmatch
  simp [extract_text_sections, get_clean_text, hnone]

/-- C5 witness: a document with no label span at all yields the sentinel. -/
theorem C5_witness : (extract_text_sections (Node.text "plain")).1 = "Not Found" :=
  C5_missing_label_sentinel (Node.text "plain") (by
    intro p n hp
    cases p with
    | nil =>
      have hn : Node.text "plain" = n := by
        simpa [getAt] using hp
      rw [← hn]
      rfl
    | cons i rest => simp [getAt] at hp)

/-- C4 (amended).  The extractor is a deterministic function of the parsed
document and extracts the three fields in the fixed source order with the
mutated document threaded through; two calls on identical input therefore
yield identical output.  The order-independence half of the claim is
refuted by the counterexample. -/
theorem C4_deterministic_fixed_order (t : Node) :
    (runKeywords ["Job Summary", "Job Responsibilities", "Required Skills"] t).1 =
      [(extract_text_sections t).1, (extract_text_sections t).2.1,
        (extract_text_sections t).2.2] := by
  simp [runKeywords, extract_text_sections]

/-- C4 counterexample: on a document whose container holds the labels of
two fields, the Job Responsibilities field extracted in the source order
differs from the same field extracted first, so field results depend on
the extraction order. -/
theorem C4_counterexample :
    (extract_text_sections exDoc4).2.1 = "content" ∧
    (runKeywords ["Job Responsibilities", "Job Summary", "Required Skills"] exDoc4).1 =
      ["Job Summary\ncontent", "content", "Not Found"] := by
  constructor <;> rfl

/-! ## Lemmas about the page scanner -/

theorem memB_iff (s : String) : ∀ (l : List String), memB s l = true ↔ s ∈ l
  | [] => by simp [memB]
  | t :: rest => by
    simp [memB, memB_iff s rest, List.mem_cons]

theorem rowOutcome_some_spec {ids : List String} {r : RowEnv} {rec : Record}
    (h : rowOutcome ids r = some rec) :
    rec.jobId = determineId r ∧ (rec.jobId ≠ "N/A" → rec.jobId ∉ ids) := by
  simp only [rowOutcome] at h
  split at h
  · cases h
  split at h
  · cases h
  split at h
  · cases h
  split at h
  · cases h
  split at h
  · cases h
  rename_i hguard
  injection h with h
  subst h
  refine ⟨rfl, ?_⟩
  intro hna hmem
  apply hguard
  simp only [Bool.and_eq_true, bne_iff_ne, ne_eq]
  exact ⟨by simpa using hna, (memB_iff _ ids).mpr hmem⟩

theorem rowOutcome_none_of_fails {ids : List String} {r : RowEnv}
    (h : rowFails r = true) : rowOutcome ids r = none := by
  simp only [rowFails, Bool.or_eq_true, Bool.not_eq_true'] at h
  simp only [rowOutcome]
  split
  · rfl
  split
  · rfl
  split
  · rfl
  split
  · rfl
  rename_i h1 _ h3 h4
  exfalso
  rcases h with (hf | hf) | hf
  · exact h1 (by simp [hf])
  · exact h3 (by simp [hf])
  · exact h4 hf

theorem scrape_mem_spec {ids : List String} {pg : PageEnv} {rec : Record}
    (h : rec ∈ scrape_current_page pg ids) :
    ∃ r ∈ pg.rows, rowOutcome ids r = some rec := by
  unfold scrape_current_page at h
  split at h
  · exact List.mem_filterMap.mp h
  · cases h

theorem pairwise_filterMap_rowOutcome : ∀ (rows : List RowEnv) (ids : List String),
    DistinctRowIds rows → NSPairwiseRec (rows.filterMap (rowOutcome ids))
  | [], _, _ => by simp
  | r :: rest, ids, hdist => by
    have hd := List.pairwise_cons.mp hdist
    have ih := pairwise_filterMap_rowOutcome rest ids hd.2
    cases hro : rowOutcome ids r with
    | none => simpa [List.filterMap_cons, hro] using ih
    | some rec =>
      rw [show (r :: rest).filterMap (rowOutcome ids) = rec :: rest.filterMap (rowOutcome ids) by
        simp [List.filterMap_cons, hro]]
      refine List.Pairwise.cons ?_ ih
      intro rec2 hmem2 heq
      rcases List.mem_filterMap.mp hmem2 with ⟨r2, hr2mem, hro2⟩
      have e1 := (rowOutcome_some_spec hro).1
      have e2 := (rowOutcome_some_spec hro2).1
      rw [e1, e2] at heq
      rw [e1]
      exact hd.1 r2 hr2mem heq

theorem find6_spec : ∀ (cs : List Char) (d : List Char),
    find6 cs = some d → d.length = 6 ∧ d.all Char.isDigit = true
  | [], d, h => by simp [find6] at h
  | c :: rest, d, h => by
    simp only [find6] at h
    split at h
    · rename_i hc
      injection h with h
      subst h
      simp only [Bool.and_eq_true, beq_iff_eq] at hc
      exact hc
    · exact find6_spec rest d h

theorem stringMk_length (d : List Char) : (String.mk d).length = d.length := rfl

theorem stringMk_data (d : List Char) : (String.mk d).data = d := rfl

theorem sixDigit_of_find6 {s : String} {d : List Char} (h : find6 s.data = some d) :
    (String.mk d).length = 6 ∧ (String.mk d).data.all Char.isDigit = true := by
  have hs := find6_spec _ _ h
  rw [stringMk_length, stringMk_data]
  exact hs

theorem determineId_shape (r : RowEnv) :
    determineId r = "N/A" ∨
      ((determineId r).length = 6 ∧ (determineId r).data.all Char.isDigit = true) := by
  cases h1 : find6 r.headerText.data with
  | some d =>
    have hid : determineId r = String.mk d := by simp [determineId, h1]
    rw [hid]
    exact Or.inr (sixDigit_of_find6 h1)
  | none =>
    cases h2 : r.bodyIdText with
    | none => exact Or.inl (by simp [determineId, h1, h2])
    | some s =>
      cases h3 : find6 s.data with
      | none => exact Or.inl (by simp [determineId, h1, h2, h3])
      | some d =>
        have hid : determineId r = String.mk d := by simp [determineId, h1, h2, h3]
        rw [hid]
        exact Or.inr (sixDigit_of_find6 h3)

theorem determineIdPoll_shape : ∀ (env : List PollEnv),
    determineIdPoll env = "N/A" ∨
      ((determineIdPoll env).length = 6 ∧ (determineIdPoll env).data.all Char.isDigit = true)
  | [] => by left; rfl
  | e :: rest => by
    cases h1 : (if e.headerVisible then find6 e.headerText.data else none) with
    | some d =>
      have hd : find6 e.headerText.data = some d := by
        by_cases hv : e.headerVisible = true
        · simpa [hv] using h1
        · rw [Bool.not_eq_true] at hv
          simp [hv] at h1
      have hid : determineIdPoll (e :: rest) = String.mk d := by
        simp [determineIdPoll, h1]
      rw [hid]
      exact Or.inr (sixDigit_of_find6 hd)
    | none =>
      cases h2 : e.bodyIdText with
      | none =>
        have hid : determineIdPoll (e :: rest) = determineIdPoll rest := by
          simp [determineIdPoll, h1, h2]
        rw [hid]
        exact determineIdPoll_shape rest
      | some s =>
        cases h3 : find6 s.data with
        | none =>
          have hid : determineIdPoll (e :: rest) = determineIdPoll rest := by
            simp [determineIdPoll, h1, h2, h3]
          rw [hid]
          exact determineIdPoll_shape rest
        | some d =>
          have hid : determineIdPoll (e :: rest) = String.mk d := by
            simp [determineIdPoll, h1, h2, h3]
          rw [hid]
          exact Or.inr (sixDigit_of_find6 h3)

/-! ## Claims about the page scanner -/

/-- C10 (confirmed).  Every record appended by a scan carries either the
sentinel id or a string of exactly six decimal digits, and the polling id
determination of the original scraper variant satisfies the same
invariant. -/
theorem C10_jobid_shape :
    (∀ (ids : List String) (pg : PageEnv) (rec : Record),
      rec ∈ scrape_current_page pg ids →
      rec.jobId = "N/A" ∨ (rec.jobId.length = 6 ∧ rec.jobId.data.all Char.isDigit = true)) ∧
    (∀ (env : List PollEnv),
      determineIdPoll env = "N/A" ∨
        ((determineIdPoll env).length = 6 ∧
          (determineIdPoll env).data.all Char.isDigit = true)) := by
  constructor
  · intro ids pg rec hmem
    rcases scrape_mem_spec hmem with ⟨r, _, hro⟩
    rw [(rowOutcome_some_spec hro).1]
    exact determineId_shape r
  · exact determineIdPoll_shape

/-- C10 witness: the record scanned from the good row has a six-digit id. -/
theorem C10_witness :
    recGood ∈ scrape_current_page pgGood [] ∧
    (recGood.jobId = "N/A" ∨
      (recGood.jobId.length = 6 ∧ recGood.jobId.data.all Char.isDigit = true)) :=
  ⟨by decide, C10_jobid_shape.1 [] pgGood recGood (by decide)⟩

/-- C2 (amended).  Every returned posting whose determined id is not the
sentinel has an id that was not in the known-id set when the call started;
and provided the page presents pairwise distinct non-sentinel determined
ids, the returned sequence contains no two postings sharing a non-sentinel
id.  Sentinel-id postings are returned regardless and may repeat, as the
counterexample shows. -/
theorem C2_new_nonduplicate (ids : List String) (pg : PageEnv) :
    (∀ rec ∈ scrape_current_page pg ids, rec.jobId ≠ "N/A" → rec.jobId ∉ ids) ∧
    (DistinctRowIds pg.rows → NSPairwiseRec (scrape_current_page pg ids)) := by
  constructor
  · intro rec hmem hna
    rcases scrape_mem_spec hmem with ⟨r, _, hro⟩
    exact (rowOutcome_some_spec hro).2 hna
  · intro hdist
    unfold scrape_current_page
    split
    · exact pairwise_filterMap_rowOutcome pg.rows ids hdist
    · exact List.Pairwise.nil

/-- C2 witness: a scan against a nonempty known-id set returns a record
whose id is new, and the returned batch has pairwise distinct ids. -/
theorem C2_witness :
    recGood ∈ scrape_current_page pgGood ["111111"] ∧
    recGood.jobId ∉ ["111111"] ∧
    NSPairwiseRec (scrape_current_page pgGood ["111111"]) :=
  ⟨by decide,
   (C2_new_nonduplicate ["111111"] pgGood).1 recGood (by decide) (by decide),
   (C2_new_nonduplicate ["111111"] pgGood).2 (by simp [pgGood, rowGood])⟩

/-- C2 counterexample: with the sentinel already among the known ids, a
page showing two id-less rows yields two postings, both with id equal to a
member of the known-id set and equal to each other, refuting both halves
of the claim as stated. -/
theorem C2_counterexample :
    (scrape_current_page pgNA2 ["N/A"]).map Record.jobId = ["N/A", "N/A"] := by rfl

/-- C8 (confirmed).  A row that fails in any of the enumerated ways
contributes nothing and the scan of the remaining rows is exactly the scan
without the failed row: a failure on row i never aborts rows after i. -/
theorem C8_row_failure_isolated (ids : List String) (pre post : List RowEnv) (r : RowEnv)
    (h : rowFails r = true) :
    scrape_current_page ⟨true, pre ++ r :: post⟩ ids =
      scrape_current_page ⟨true, pre⟩ ids ++ scrape_current_page ⟨true, post⟩ ids := by
  simp [scrape_current_page, List.filterMap_append, List.filterMap_cons,
    rowOutcome_none_of_fails h]

/-- C8 witness: the failing row between two rows drops out and both
neighbours are still scanned. -/
theorem C8_witness :
    scrape_current_page ⟨true, [rowGood] ++ rowBad :: [rowNA]⟩ [] =
      scrape_current_page ⟨true, [rowGood]⟩ [] ++ scrape_current_page ⟨true, [rowNA]⟩ [] :=
  C8_row_failure_isolated [] [rowGood] [rowNA] rowBad (by decide)

/-! ## Lemmas about the crawl controller -/

theorem scrape_new_id {ids : List String} {pg : PageEnv} {rec : Record}
    (hmem : rec ∈ scrape_current_page pg ids) (hna : rec.jobId ≠ "N/A") :
    rec.jobId ∉ ids := by
  rcases scrape_mem_spec hmem with ⟨r, _, hro⟩
  exact (rowOutcome_some_spec hro).2 hna

theorem scrape_pairwise {ids : List String} {pg : PageEnv}
    (hdist : DistinctRowIds pg.rows) :
    NSPairwiseRec (scrape_current_page pg ids) := by
  unfold scrape_current_page
  split
  · exact pairwise_filterMap_rowOutcome pg.rows ids hdist
  · exact List.Pairwise.nil

theorem crawlStep_inv {st : CrawlState} {pg : PageEnv}
    (hpair : NSPairwiseRec st.df) (hcov : ∀ rec ∈ st.df, rec.jobId ∈ st.ids)
    (hdist : DistinctRowIds pg.rows) :
    NSPairwiseRec (crawlStep st pg).df ∧
      (∀ rec ∈ (crawlStep st pg).df, rec.jobId ∈ (crawlStep st pg).ids) := by
  simp only [crawlStep]
  split
  · exact ⟨hpair, hcov⟩
  · constructor
    · dsimp only
      refine List.pairwise_append.mpr ⟨hpair, scrape_pairwise hdist, ?_⟩
      intro a ha b hb heq
      by_cases hbna : b.jobId = "N/A"
      · rw [heq, hbna]
      · exact absurd (heq ▸ hcov a ha) (scrape_new_id hb hbna)
    · dsimp only
      intro rec hrec
      rcases List.mem_append.mp hrec with hrec | hrec
      · exact List.mem_append_left _ (hcov rec hrec)
      · exact List.mem_append_right _ (List.mem_map_of_mem Record.jobId hrec)

theorem crawlStep_extends (st : CrawlState) (pg : PageEnv) :
    st.df <+: (crawlStep st pg).df := by
  simp only [crawlStep]
  split
  · exact ⟨[], by simp⟩
  · exact ⟨_, rfl⟩

theorem crawlStep_persisted (st : CrawlState) (pg : PageEnv) :
    (crawlStep st pg).persisted = st.persisted ∨
      (crawlStep st pg).persisted = some ((crawlStep st pg).df) := by
  simp only [crawlStep]
  split
  · exact Or.inl rfl
  · exact Or.inr rfl

theorem runPages_persisted_extends : ∀ (ps : List PageEnv) (st : CrawlState) (d0 : List Record),
    d0 <+: st.df → (∀ d, st.persisted = some d → d0 <+: d) →
    ∀ d, (runPages st ps).persisted = some d → d0 <+: d
  | [], _, _, _, hper => hper
  | pg :: ps, st, d0, hpre, hper => by
    refine runPages_persisted_extends ps (crawlStep st pg) d0
      (hpre.trans (crawlStep_extends st pg)) ?_
    intro d hd
    rcases crawlStep_persisted st pg with hcp | hcp
    · exact hper d (by rw [← hcp]; exact hd)
    · rw [hcp] at hd
      injection hd with hd
      subst hd
      exact hpre.trans (crawlStep_extends st pg)

theorem runPages_all : ∀ (ps : List PageEnv) (st : CrawlState) (d0 : List Record),
    NSPairwiseRec st.df → (∀ rec ∈ st.df, rec.jobId ∈ st.ids) → GoodPages ps →
    d0 <+: st.df → (∀ d, st.persisted = some d → NSPairwiseRec d ∧ d0 <+: d) →
    ∀ d, (runPages st ps).persisted = some d → NSPairwiseRec d ∧ d0 <+: d
  | [], _, _, _, _, _, _, hper => hper
  | pg :: ps, st, d0, h1, h2, hg, hpre, hper => by
    have hstep := crawlStep_inv h1 h2 (hg pg (List.mem_cons_self _ _))
    refine runPages_all ps (crawlStep st pg) d0 hstep.1 hstep.2
      (fun p hp => hg p (List.mem_cons_of_mem _ hp))
      (hpre.trans (crawlStep_extends st pg)) ?_
    intro d hd
    rcases crawlStep_persisted st pg with hcp | hcp
    · exact hper d (by rw [← hcp]; exact hd)
    · rw [hcp] at hd
      injection hd with hd
      subst hd
      exact ⟨hstep.1, hpre.trans (crawlStep_extends st pg)⟩

/-! ## Claims about the crawl controller -/

/-- C3 (confirmed).  After a page iteration that yields at least one new
record, the persisted snapshot is the whole in-memory result set (a
whole-set rewrite, not an append), so the persisted record count equals
the in-memory count at that moment; the result set grew by exactly the
batch. -/
theorem C3_whole_set_rewrite (st : CrawlState) (pg : PageEnv)
    (h : scrape_current_page pg st.ids ≠ []) :
    (crawlStep st pg).persisted = some ((crawlStep st pg).df) ∧
    (crawlStep st pg).df.length = st.df.length + (scrape_current_page pg st.ids).length := by
  have hne : ¬((scrape_current_page pg st.ids).isEmpty = true) := by
    cases hl : scrape_current_page pg st.ids with
    | nil => exact absurd hl h
    | cons a l => simp
  simp only [crawlStep]
  rw [if_neg hne]
  exact ⟨rfl, by simp⟩

/-- C3 witness: the first page scanned from the empty state is persisted
as a snapshot equal to the in-memory set. -/
theorem C3_witness :
    (crawlStep stEmpty pgGood).persisted = some ((crawlStep stEmpty pgGood).df) ∧
    (crawlStep stEmpty pgGood).df.length =
      stEmpty.df.length + (scrape_current_page pgGood stEmpty.ids).length :=
  C3_whole_set_rewrite stEmpty pgGood (by decide)

/-- C7 (confirmed).  With no prior file the crawl starts with an empty
dedup set at page one; otherwise the dedup set is exactly the set of Job
ID values of the persisted records and the start page is the floor of the
record count over the estimated page size, plus one. -/
theorem C7_checkpoint :
    checkpointLoad none = ([], 1) ∧
    (∀ (df : List Record) (s : String),
      s ∈ (checkpointLoad (some df)).1 ↔ ∃ r ∈ df, r.jobId = s) ∧
    (∀ df : List Record, (checkpointLoad (some df)).2 = df.length / 50 + 1) := by
  refine ⟨rfl, ?_, fun df => rfl⟩
  intro df s
  simp [checkpointLoad, List.mem_map]

/-- C1 (amended).  Across two consecutive runs against the same
destination, the second persisted result extends the first as a prefix
(existing records are never removed or overwritten) — unconditionally;
and provided the prior result and every visited page carry pairwise
distinct non-sentinel ids, the second persisted result contains no two
records sharing a non-sentinel Job ID.  Sentinel-id records are exempt
from dedup and may repeat, as the counterexample shows. -/
theorem C1_superset_dedup (prior : Option (List Record)) (pages1 pages2 : List PageEnv)
    (d1 d2 : List Record)
    (h1 : (scrape_all_pages prior pages1).persisted = some d1)
    (h2 : (scrape_all_pages (scrape_all_pages prior pages1).persisted pages2).persisted =
      some d2) :
    d1 <+: d2 ∧
    (NSOpt prior → GoodPages pages1 → GoodPages pages2 → NSPairwiseRec d2) := by
  rw [h1] at h2
  constructor
  · refine runPages_persisted_extends pages2
      { df := (some d1).getD [], ids := (checkpointLoad (some d1)).1, persisted := some d1 }
      d1 ⟨[], by simp⟩ ?_ d2 h2
    intro d hd
    injection hd with hd
    subst hd
    exact ⟨[], by simp⟩
  · intro hprior hg1 hg2
    have hbase1 : NSPairwiseRec (prior.getD []) ∧
        (∀ rec ∈ prior.getD [], rec.jobId ∈ (checkpointLoad prior).1) := by
      cases prior with
      | none => exact ⟨List.Pairwise.nil, by intro rec hmem; cases hmem⟩
      | some d =>
        refine ⟨hprior, ?_⟩
        intro rec hmem
        simpa [checkpointLoad] using List.mem_map_of_mem Record.jobId hmem
    have hper1 : ∀ d, prior = some d → NSPairwiseRec d ∧ ([] : List Record) <+: d := by
      intro d hd
      subst hd
      exact ⟨hprior, ⟨_, rfl⟩⟩
    have hrun1 := runPages_all pages1
      { df := prior.getD [], ids := (checkpointLoad prior).1, persisted := prior }
      [] hbase1.1 hbase1.2 hg1 ⟨_, rfl⟩ hper1
    have hd1 : NSPairwiseRec d1 := (hrun1 d1 h1).1
    have hbase2 : NSPairwiseRec ((some d1).getD ([] : List Record)) ∧
        (∀ rec ∈ (some d1).getD ([] : List Record),
          rec.jobId ∈ (checkpointLoad (some d1)).1) := by
      refine ⟨hd1, ?_⟩
      intro rec hmem
      simpa [checkpointLoad] using List.mem_map_of_mem Record.jobId hmem
    have hper2 : ∀ d, (some d1 : Option (List Record)) = some d →
        NSPairwiseRec d ∧ d1 <+: d := by
      intro d hd
      injection hd with hd
      subst hd
      exact ⟨hd1, ⟨[], by simp⟩⟩
    have hrun2 := runPages_all pages2
      { df := (some d1).getD [], ids := (checkpointLoad (some d1)).1, persisted := some d1 }
      d1 hbase2.1 hbase2.2 hg2 ⟨[], by simp⟩ hper2
    exact (hrun2 d2 h2).1

/-- C1 witness: a fresh first run over one well-formed page followed by a
second run over no pages preserves the persisted set as a prefix, and the
dedup conclusion follows once the page hypotheses are discharged. -/
theorem C1_witness :
    ([recGood] : List Record) <+: [recGood] ∧ NSPairwiseRec [recGood] :=
  ⟨(C1_superset_dedup none [pgGood] [] [recGood] [recGood] (by decide) (by decide)).1,
   (C1_superset_dedup none [pgGood] [] [recGood] [recGood] (by decide) (by decide)).2
     trivial
     (by intro pg hpg
         rcases List.mem_singleton.mp hpg with rfl
         simp [pgGood, rowGood])
     (by intro pg hpg; cases hpg)⟩

/-- C1 counterexample: an id-less posting persisted by the first run is
re-scanned and appended again by the second run, so the second persisted
result holds two records with the same Job ID value, refuting the
no-duplicate half of the claim as stated. -/
theorem C1_counterexample :
    Option.map (List.map Record.jobId)
      (scrape_all_pages (scrape_all_pages none [pgNA]).persisted [pgNA]).persisted =
      some ["N/A", "N/A"] := by rfl

/-! ## Lemmas about the filter controller -/

theorem applyLevel_get : ∀ (st : List (String × Bool)) (lv : String) (i : Nat)
    (p : String × Bool), st.get? i = some p →
    ∃ p2, (applyLevel st lv).get? i = some p2 ∧ p2.1 = p.1 ∧ (p.2 = true → p2.2 = true)
  | [], _, i, p, h => by simp at h
  | (t, v) :: rest, lv, i, p, h => by
    by_cases hm : isInfixB lv.data t.data = true
    · rw [show applyLevel ((t, v) :: rest) lv = (t, if v then v else true) :: rest by
        simp [applyLevel, hm]]
      cases i with
      | zero =>
        simp only [List.get?] at h ⊢
        injection h with h
        subst h
        exact ⟨(t, if v then v else true), rfl, rfl, fun _ => by cases v <;> rfl⟩
      | succ n => exact ⟨p, by simpa using h, rfl, fun hv => hv⟩
    · rw [show applyLevel ((t, v) :: rest) lv = (t, v) :: applyLevel rest lv by
        simp [applyLevel, hm]]
      cases i with
      | zero =>
        simp only [List.get?] at h ⊢
        exact ⟨p, h, rfl, fun hv => hv⟩
      | succ n =>
        have hs := applyLevel_get rest lv n p (by simpa using h)
        simpa using hs

theorem firstMatchOn_applyLevel : ∀ (st : List (String × Bool)) (lv : String),
    firstMatchOn lv (applyLevel st lv) = true
  | [], lv => rfl
  | (t, v) :: rest, lv => by
    by_cases hm : isInfixB lv.data t.data = true
    · rw [show applyLevel ((t, v) :: rest) lv = (t, if v then v else true) :: rest by
        simp [applyLevel, hm]]
      rw [show firstMatchOn lv ((t, if v then v else true) :: rest) =
        (if v then v else true) by simp [firstMatchOn, hm]]
      cases v <;> rfl
    · rw [show applyLevel ((t, v) :: rest) lv = (t, v) :: applyLevel rest lv by
        simp [applyLevel, hm]]
      rw [show firstMatchOn lv ((t, v) :: applyLevel rest lv) =
        firstMatchOn lv (applyLevel rest lv) by simp [firstMatchOn, hm]]
      exact firstMatchOn_applyLevel rest lv

theorem applyLevel_noop : ∀ (st : List (String × Bool)) (lv : String),
    firstMatchOn lv st = true → applyLevel st lv = st
  | [], _, _ => rfl
  | (t, v) :: rest, lv, h => by
    by_cases hm : isInfixB lv.data t.data = true
    · have hv : v = true := by simpa [firstMatchOn, hm] using h
      subst hv
      simp [applyLevel, hm]
    · have h2 : firstMatchOn lv rest = true := by simpa [firstMatchOn, hm] using h
      simp [applyLevel, hm, applyLevel_noop rest lv h2]

theorem firstMatchOn_preserved : ∀ (st : List (String × Bool)) (lv lv2 : String),
    firstMatchOn lv st = true → firstMatchOn lv (applyLevel st lv2) = true
  | [], _, _, _ => rfl
  | (t, v) :: rest, lv, lv2, h => by
    by_cases hm2 : isInfixB lv2.data t.data = true
    · rw [show applyLevel ((t, v) :: rest) lv2 = (t, if v then v else true) :: rest by
        simp [applyLevel, hm2]]
      by_cases hm : isInfixB lv.data t.data = true
      · rw [show firstMatchOn lv ((t, if v then v else true) :: rest) =
          (if v then v else true) by simp [firstMatchOn, hm]]
        cases v <;> rfl
      · have h2 : firstMatchOn lv rest = true := by simpa [firstMatchOn, hm] using h
        simpa [firstMatchOn, hm] using h2
    · rw [show applyLevel ((t, v) :: rest) lv2 = (t, v) :: applyLevel rest lv2 by
        simp [applyLevel, hm2]]
      by_cases hm : isInfixB lv.data t.data = true
      · simpa [firstMatchOn, hm] using h
      · have h2 : firstMatchOn lv rest = true := by simpa [firstMatchOn, hm] using h
        simpa [firstMatchOn, hm] using firstMatchOn_preserved rest lv lv2 h2

theorem apply_filters_keeps_on (env : FilterEnv) (st : List (String × Bool)) (i : Nat)
    (p : String × Bool) (hget : st.get? i = some p) (hon : p.2 = true) :
    ∃ p2, (apply_filters env st).get? i = some p2 ∧ p2.1 = p.1 ∧ p2.2 = true := by
  unfold apply_filters
  by_cases h1 : (!env.levelButtonVisible) = true
  · rw [if_pos h1]
    exact ⟨p, hget, rfl, hon⟩
  · rw [if_neg h1]
    by_cases h2 : (!env.dropdownOpens) = true
    · rw [if_pos h2]
      exact ⟨p, hget, rfl, hon⟩
    · rw [if_neg h2]
      show ∃ p2, (applyLevel (applyLevel st "Junior") "Intermediate").get? i = some p2 ∧
        p2.1 = p.1 ∧ p2.2 = true
      rcases applyLevel_get st "Junior" i p hget with ⟨q, hq, hq1, hq2⟩
      rcases applyLevel_get (applyLevel st "Junior") "Intermediate" i q hq with
        ⟨q2, hq2g, hq21, hq22⟩
      exact ⟨q2, hq2g, by rw [hq21, hq1], hq22 (hq2 hon)⟩

theorem apply_filters_idem (env : FilterEnv) (st : List (String × Bool)) :
    apply_filters env (apply_filters env st) = apply_filters env st := by
  unfold apply_filters
  by_cases h1 : (!env.levelButtonVisible) = true
  · simp [h1]
  · rw [if_neg h1, if_neg h1]
    by_cases h2 : (!env.dropdownOpens) = true
    · simp [h2]
    · rw [if_neg h2, if_neg h2]
      show applyLevel (applyLevel (applyLevel (applyLevel st "Junior") "Intermediate")
        "Junior") "Intermediate" = applyLevel (applyLevel st "Junior") "Intermediate"
      have hJ : firstMatchOn "Junior"
          (applyLevel (applyLevel st "Junior") "Intermediate") = true :=
        firstMatchOn_preserved _ _ _ (firstMatchOn_applyLevel st "Junior")
      rw [applyLevel_noop _ _ hJ]
      exact applyLevel_noop _ _ (firstMatchOn_applyLevel _ "Intermediate")

/-! ## Claim about the filter controller -/

/-- C9 (confirmed).  The filter application never toggles an already-on
option off: every already-on toggle is still on afterwards, with its name
unchanged; and re-applying the same filter specification is the identity
on the result of the first application. -/
theorem C9_filters_idempotent :
    (∀ (env : FilterEnv) (st : List (String × Bool)) (i : Nat) (p : String × Bool),
      st.get? i = some p → p.2 = true →
      ∃ p2, (apply_filters env st).get? i = some p2 ∧ p2.1 = p.1 ∧ p2.2 = true) ∧
    (∀ (env : FilterEnv) (st : List (String × Bool)),
      apply_filters env (apply_filters env st) = apply_filters env st) :=
  ⟨apply_filters_keeps_on, apply_filters_idem⟩

/-- C9 witness: the already-on Junior toggle stays on across an
application that also turns Intermediate on. -/
theorem C9_witness :
    ∃ p2, (apply_filters fEnv fState).get? 0 = some p2 ∧
      p2.1 = ("Junior", true).1 ∧ p2.2 = true :=
  C9_filters_idempotent.1 fEnv fState 0 ("Junior", true) rfl rfl

end ReResume
